import Mathlib

/-!
Verification of the layer abstraction of the Waffles neural-network engine
(`GLayer.cpp` / `GLayer.h`).  Doubles are modelled as rationals (`ℚ`), the
`GVec`/`GMatrix` collaborators as `List ℚ` / `List (List ℚ)`, and the C++
loops as folds over `List.range`, so that every definition is executable.
-/

namespace Waffles

/-! ## Definitions -/

/-- `GVec::dotProduct`: sum of pairwise products (over the common length). -/
def dotProduct (a b : List ℚ) : ℚ := (List.zipWith (· * ·) a b).sum

/-- `GVec::addScaled(s, w)`: elementwise `a[i] + s * w[i]`. -/
def addScaled (a : List ℚ) (s : ℚ) (w : List ℚ) : List ℚ :=
  List.zipWith (fun x y => x + s * y) a w

/-- The C idiom `d[k] += v` on a buffer modelled as a list. -/
def addAt (d : List ℚ) (k : ℕ) (v : ℚ) : List ℚ := d.set k (d.getD k 0 + v)

/-- Column count of a matrix, read off its first row (`GMatrix::cols`). -/
def colsOf (M : List (List ℚ)) : ℕ := (M.getD 0 []).length

/-- Shape check: `M` is an `r × c` matrix. -/
def isMatrix (M : List (List ℚ)) (r c : ℕ) : Bool :=
  M.length == r && M.all (fun row => row.length == c)

/-- `GMatrix::fromVector`: read `r` rows of `c` values each, row-major,
from the front of `v` (`Modelled from the spec:` `GMatrix` is an external
collaborator absent from `src/`; the spec only requires that the weight
vector "round-trip exactly through `weightsToVector`/`vectorToWeights`",
so the reshape keeps the matrix's own row/column counts). -/
def fromVector : ℕ → ℕ → List ℚ → List (List ℚ)
  | 0, _, _ => []
  | r + 1, c, v => v.take c :: fromVector r c (v.drop c)

/-- The iteration list of the C loop `for(i = start; i < stop; i += step)`. -/
def stepRange (start stop step : ℕ) : List ℕ :=
  if step = 0 then []
  else (List.range ((stop - start + step - 1) / step)).map (fun t => start + t * step)

/-- `GLayerLinear::feedForward`: `W` is the `(inputs+1) × outputs` weight
matrix whose last row is the bias (`bias() = m_weights.back()`); the
activation starts as a copy of the bias and each input row is added in,
scaled by the corresponding input value. -/
def linearFeedForward (W : List (List ℚ)) (input : List ℚ) : List ℚ :=
  (List.range (W.length - 1)).foldl
    (fun a i => addScaled a (input.getD i 0) (W.getD i [])) (W.getD (W.length - 1) [])

/-- `GLayerLinear::backPropError`: writes
`upstreamError[i] = error · W[i,:]` for each `i` below the upstream layer's
output count; the written prefix is returned. -/
def linearBackPropError (W : List (List ℚ)) (err : List ℚ) (inputCount : ℕ) : List ℚ :=
  (List.range inputCount).map (fun i => dotProduct err (W.getD i []))

/-- `GLayerLinear::updateDeltas`: the delta pointer walks the buffer in
row-major order, so the slot for weight `(i, j)` is `i * m + j` and the
slot for bias `j` is `n * m + j`; each slot is incremented (`*delta++ +=`). -/
def linearUpdateDeltas (n m : ℕ) (upAct err deltas : List ℚ) : List ℚ :=
  (List.range m).foldl (fun d j => addAt d (n * m + j) (err.getD j 0))
    ((List.range n).foldl (fun d i =>
      (List.range m).foldl
        (fun d j => addAt d (i * m + j) (err.getD j 0 * upAct.getD i 0)) d) deltas)

/-- `GLayerProductPooling::resize` / `GLayerAdditionPooling::resize` (identical
bodies): reject unless `outputCount * 2 == inputCount`, otherwise the
activation matrix gets `outputCount` columns.  The layer state is its
activation column count (`outputs()`); the result is the new state. -/
def poolingResize (cols inputCount outputCount : ℕ) : Except String ℕ :=
  if outputCount * 2 ≠ inputCount then .error ("inputCount must be 2*outputCount")
  else if outputCount = cols then .ok cols
  else .ok outputCount

/-- `GLayerProductPooling::GLayerProductPooling(size_t inps)`: reject odd
input counts, then `resize(inps, inps / 2)`.  Returns `outputs()` of the
constructed layer. -/
def productPoolingCtor (inps : ℕ) : Except String ℕ :=
  if inps &&& 1 = 1 then .error ("inputCount must be divisible by 2")
  else poolingResize 0 inps (inps / 2)

/-- `GLayerAdditionPooling::GLayerAdditionPooling(size_t inps)`: same body as
the product-pooling constructor. -/
def additionPoolingCtor (inps : ℕ) : Except String ℕ :=
  if inps &&& 1 = 1 then .error ("inputCount must be divisible by 2")
  else poolingResize 0 inps (inps / 2)

/-- `GLayerAdditionPooling::backPropError`: for each output `i` the code
executes `upstreamError[2i] = err[i] + upstreamAct[2i+1]` and
`upstreamError[2i+1] = err[i] + upstreamAct[2i]` (the line carries the
source comment "Should we add here?").  `buf` is the upstream error buffer
before the call. -/
def additionPoolingBackPropError (upStreamAct err buf : List ℚ) (outputCount : ℕ) : List ℚ :=
  (List.range outputCount).foldl (fun u i =>
    let u1 := u.set (2 * i) (err.getD i 0 + upStreamAct.getD (2 * i + 1) 0)
    u1.set (2 * i + 1) (err.getD i 0 + upStreamAct.getD (2 * i) 0)) buf

/-- `GLayerLogistic::eval`: saturate to `1` for `x >= 700`, to `0` for
`x < -700`, otherwise compute `1 / (exp(-x) + 1)`. -/
noncomputable def logisticEval (x : ℝ) : ℝ :=
  if x ≥ 700 then 1
  else if x < -700 then 0
  else 1 / (Real.exp (-x) + 1)

/-- State of a `GMaxPooling2D` layer: the four geometry fields plus the
column count of the 2-row `m_activation` matrix (row 0 is the activation
buffer, row 1 the error buffer, so both have length `actCols`). -/
structure GMaxPooling2DState where
  inputCols : ℕ
  inputRows : ℕ
  inputChannels : ℕ
  regionSize : ℕ
  actCols : ℕ
  deriving DecidableEq, Repr

/-- `GMaxPooling2D::outputs()`:
`m_inputRows * m_inputCols * m_inputChannels / (m_regionSize * m_regionSize)`. -/
def GMaxPooling2DState.outputs (L : GMaxPooling2DState) : ℕ :=
  L.inputRows * L.inputCols * L.inputChannels / (L.regionSize * L.regionSize)

/-- `GMaxPooling2D::GMaxPooling2D(GDomNode*)`: reads `icol`, `irow`,
`ichan`, `size` from the document and initializes nothing else — in
particular `m_activation` keeps its default-constructed `2 × 0` shape
(the body is empty and no `resize` is performed). -/
def maxPooling2dFromDom (icol irow ichan size : ℕ) : GMaxPooling2DState :=
  { inputCols := icol, inputRows := irow, inputChannels := ichan,
    regionSize := size, actCols := 0 }

/-- `GLayerMaxOut::feedForward`: for each output unit the best candidate
`(in[j] + bias[j]) * W[j][i]` and its index are found; then with probability
1/10 the winner is overridden by a random input index.  Both draws come from
the C library `rand()` (the lines carry the comment "todo: get rid of
rand()"), modelled as the hidden global stream `stream` consumed at a
running position; the layer's own inputs carry no `GRand`.  Returns
(activations, recorded winners, final stream position). -/
def maxOutFeedForward (inputCount outputCount : ℕ) (W : List (List ℚ)) (b inp : List ℚ)
    (stream : ℕ → ℕ) : List ℚ × List ℕ × ℕ :=
  (List.range outputCount).foldl (fun st i =>
    let inner := (List.range inputCount).foldl (fun bw j =>
        let cand := (inp.getD j 0 + b.getD j 0) * (W.getD j []).getD i 0
        if cand > bw.1 then (cand, j) else bw) (-(10 : ℚ) ^ 200, 0)
    if stream st.2.2 % 10 = 0 then
      let j := stream (st.2.2 + 1) % inputCount
      (st.1 ++ [(inp.getD j 0 + b.getD j 0) * (W.getD j []).getD i 0],
       st.2.1 ++ [j], st.2.2 + 2)
    else
      (st.1 ++ [inner.1], st.2.1 ++ [inner.2], st.2.2 + 1))
    ([], [], 0)

/-- `GMaxPooling2D::feedForward`: for each block `(yy, xx)` and channel `c`
the code scans `regionSize` rows, but computes the scan start
`xStart = yStart + xx*channels + c` from `yStart` rather than from the row
loop variable `y`, so every row iteration re-reads the first row of the
block; `xEnd = xStart + regionSize*channels + c` likewise carries the
extra `+ c`.  Outputs are emitted in block-scan order. -/
def maxPoolFeedForward (cols rows ch rs : ℕ) (inp : List ℚ) : List ℚ :=
  (stepRange 0 rows rs).flatMap (fun yy =>
    (stepRange 0 cols rs).flatMap (fun xx =>
      (List.range ch).map (fun c =>
        let yStep := cols * ch
        let yStart := yy * yStep
        let yEnd := yStart + rs * yStep
        (stepRange yStart yEnd yStep).foldl (fun m _y =>
          let xStart := yStart + xx * ch + c
          let xEnd := xStart + rs * ch + c
          (stepRange xStart xEnd ch).foldl (fun m x => max m (inp.getD x 0)) m)
          (-(10 : ℚ) ^ 100))))

/-- `GMaxPooling2D::backPropError`: same (buggy) scan as `feedForward`;
every visited position of the upstream error buffer is zeroed, then the
position that held the scan maximum receives this layer's error for the
block.  Positions never visited keep their previous contents (`buf`). -/
def maxPoolBackPropError (cols rows ch rs : ℕ) (act err buf : List ℚ) : List ℚ :=
  (((stepRange 0 rows rs).flatMap (fun yy =>
      (stepRange 0 cols rs).flatMap (fun xx =>
        (List.range ch).map (fun c => (yy, xx, c))))).foldl
    (fun st b =>
      let yStep := cols * ch
      let yStart := b.1 * yStep
      let yEnd := yStart + rs * yStep
      let scan := (stepRange yStart yEnd yStep).foldl (fun s _y =>
          let xStart := yStart + b.2.1 * ch + b.2.2
          let xEnd := xStart + rs * ch + b.2.2
          (stepRange xStart xEnd ch).foldl (fun s x =>
            if act.getD x 0 > s.1 then (act.getD x 0, x, s.2.2.set x 0)
            else (s.1, s.2.1, s.2.2.set x 0)) s) (-(10 : ℚ) ^ 100, 0, st.1)
      (scan.2.2.set scan.2.1 (err.getD st.2 0), st.2 + 1))
    (buf, 0)).1

/-- The row-major 4×4 input of end-to-end scenario 3. -/
def scenarioThreeInput : List ℚ :=
  [1, 2, 5, 6, 3, 4, 7, 8, 9, 10, 13, 14, 11, 12, 15, 16]

/-- The weight-bearing layer kinds (the `GParameterizedLayer` subclasses):
`GLayerLinear` (weights matrix of `inputs+1` rows, last row the bias),
`GLayerMaxOut` (weights `inputs × outputs`, bias of length `inputs`),
`GLayerRestrictedBoltzmannMachine` (weights `outputs × inputs`, forward and
reverse bias), `GLayerConvolutional1D` (geometry fields, kernels matrix,
serialized activation matrix, one bias per kernel) and
`GLayerConvolutional2D` (geometry, stride/padding/interlacing, bias,
kernels). -/
inductive WLayer where
  | linear (weights : List (List ℚ))
  | maxout (weights : List (List ℚ)) (bias : List ℚ)
  | rbm (weights : List (List ℚ)) (bias biasReverse : List ℚ)
  | conv1d (inputSamples inputChannels outputSamples kernelsPerChannel : ℕ)
      (kernels : List (List ℚ)) (activation : List (List ℚ)) (bias : List ℚ)
  | conv2d (width height channels kWidth kHeight strideX strideY paddingX paddingY
      outputWidth outputHeight : ℕ)
      (inputInterlaced kernelsInterlaced outputInterlaced : Bool)
      (bias : List ℚ) (kernels : List (List ℚ))
  deriving DecidableEq, Repr

/-- `inputs()` of each weight-bearing layer kind. -/
def WLayer.inputs : WLayer → ℕ
  | .linear W => W.length - 1
  | .maxout W _ => W.length
  | .rbm W _ _ => colsOf W
  | .conv1d isam ichan _ _ _ _ _ => isam * ichan
  | .conv2d w h c _ _ _ _ _ _ _ _ _ _ _ _ _ => w * h * c

/-- `outputs()` of each weight-bearing layer kind. -/
def WLayer.outputs : WLayer → ℕ
  | .linear W => colsOf W
  | .maxout W _ => colsOf W
  | .rbm W _ _ => W.length
  | .conv1d _ ichan osam kpc _ _ _ => osam * ichan * kpc
  | .conv2d _ _ _ _ _ _ _ _ _ ow oh _ _ _ b _ => ow * oh * b.length

/-- `countWeights()` of each weight-bearing layer kind, as the source
computes it (note the convolutional-1D case returns
`(kernels.rows() + 1) * kernels.cols()`). -/
def WLayer.countWeights : WLayer → ℕ
  | .linear W => ((W.length - 1) + 1) * colsOf W
  | .maxout W _ => W.length * (colsOf W + 1)
  | .rbm W _ _ => (colsOf W + 1) * W.length
  | .conv1d _ _ _ _ kern _ _ => (kern.length + 1) * colsOf kern
  | .conv2d _ _ c kw kh _ _ _ _ _ _ _ _ _ _ kern => kw * kh * c * kern.length + kern.length

/-- `weightsToVector`: the doubles actually written, in order (linear: the
whole weight matrix; maxout and RBM: bias then weights; conv1d: the
`kernels.rows()` bias values then the kernels; conv2d: kernels then bias). -/
def weightsToVector : WLayer → List ℚ
  | .linear W => W.flatten
  | .maxout W b => b.take W.length ++ W.flatten
  | .rbm W b _ => b.take W.length ++ W.flatten
  | .conv1d _ _ _ _ kern _ b => b.take kern.length ++ kern.flatten
  | .conv2d _ _ _ _ _ _ _ _ _ _ _ _ _ _ b kern => kern.flatten ++ b

/-- The `size_t` each `weightsToVector` implementation returns (its
`countWeights()`-shaped expression, not necessarily the number written). -/
def wtvReturnValue : WLayer → ℕ
  | .linear W => ((W.length - 1) + 1) * colsOf W
  | .maxout W _ => W.length * (colsOf W + 1)
  | .rbm W _ _ => (colsOf W + 1) * W.length
  | .conv1d _ _ _ _ kern _ _ => (kern.length + 1) * colsOf kern
  | .conv2d _ _ c kw kh _ _ _ _ _ _ _ _ _ _ kern => kw * kh * c * kern.length + kern.length

/-- `vectorToWeights`: reads the same layout back into the layer.  The
RBM case calls `m_weights.fromVector(pVector, inputs())`, passing its
column count where every other call site passes the row count; since
`GMatrix` is an external collaborator absent from `src/`, `fromVector`
is modelled (from the spec's exact-round-trip contract) as refilling the
matrix's own `rows × cols` shape. -/
def vectorToWeights : WLayer → List ℚ → WLayer
  | .linear W, v => .linear (fromVector W.length (colsOf W) v)
  | .maxout W _, v => .maxout (fromVector W.length (colsOf W) (v.drop W.length)) (v.take W.length)
  | .rbm W _ br, v => .rbm (fromVector W.length (colsOf W) (v.drop W.length)) (v.take W.length) br
  | .conv1d isam ichan osam kpc kern act _, v =>
      .conv1d isam ichan osam kpc (fromVector kern.length (colsOf kern) (v.drop kern.length))
        act (v.take kern.length)
  | .conv2d w h c kw kh sx sy px py ow oh i1 i2 i3 _ kern, v =>
      .conv2d w h c kw kh sx sy px py ow oh i1 i2 i3
        ((v.drop (kern.length * colsOf kern)).take kern.length)
        (fromVector kern.length (colsOf kern) v)

/-- Well-formedness of a weight-bearing layer: the weight store is a
rectangular matrix and the bias lengths match the shapes the constructors
allocate. -/
def WLayer.wf : WLayer → Bool
  | .linear W => isMatrix W W.length (colsOf W)
  | .maxout W b => isMatrix W W.length (colsOf W) && b.length == W.length
  | .rbm W b br => isMatrix W W.length (colsOf W) && b.length == W.length
      && br.length == colsOf W
  | .conv1d _ ichan _ kpc kern _ b =>
      isMatrix kern (ichan * kpc) (colsOf kern) && b.length == kern.length
  | .conv2d _ _ _ _ _ _ _ _ _ _ _ _ _ _ b kern =>
      isMatrix kern kern.length (colsOf kern) && b.length == kern.length

/-- The serialized-document model (`GDomNode`): integer, boolean, vector
and matrix leaves, plus objects with named fields. -/
inductive Dom where
  | int (n : ℤ)
  | bool (b : Bool)
  | vec (v : List ℚ)
  | mat (m : List (List ℚ))
  | obj (fields : List (String × Dom))

/-- `GDomNode::field`: look a named field up in an object node. -/
def Dom.field (d : Dom) (name : String) : Except String Dom :=
  match d with
  | .obj fs =>
    match fs.lookup name with
    | some v => .ok v
    | none => .error ("missing field")
  | _ => .error ("not an object")

/-- Read an integer leaf. -/
def Dom.asInt : Dom → Except String ℤ
  | .int n => .ok n
  | _ => .error ("not an int")

/-- Read a boolean leaf. -/
def Dom.asBool : Dom → Except String Bool
  | .bool b => .ok b
  | _ => .error ("not a bool")

/-- Read a vector leaf (`GVec::deserialize`). -/
def Dom.asVec : Dom → Except String (List ℚ)
  | .vec v => .ok v
  | _ => .error ("not a vector")

/-- Read a matrix leaf (`GMatrix` deserialization). -/
def Dom.asMat : Dom → Except String (List (List ℚ))
  | .mat m => .ok m
  | _ => .error ("not a matrix")

/-- `serialize()` per layer kind, with the `type` discriminators of the
`LayerType` enum (`layer_linear = 10`, `layer_maxout = 14`,
`layer_restrictedboltzmannmachine = 16`, `layer_convolutional1d = 17`,
`layer_convolutional2d = 18`).  `GLayerMaxOut::serialize` throws
"Sorry, not implemented yet". -/
def serializeLayer : WLayer → Except String Dom
  | .linear W => .ok (.obj [("type", .int 10), ("weights", .mat W)])
  | .maxout _ _ => .error ("Sorry, not implemented yet")
  | .rbm W b br => .ok (.obj [("type", .int 16), ("weights", .mat W),
      ("bias", .vec b), ("biasRev", .vec br)])
  | .conv1d isam ichan osam kpc kern act b => .ok (.obj [("type", .int 17),
      ("isam", .int (isam : ℤ)), ("ichan", .int (ichan : ℤ)), ("osam", .int (osam : ℤ)),
      ("kpc", .int (kpc : ℤ)), ("kern", .mat kern), ("act", .mat act), ("bias", .vec b)])
  | .conv2d w h c kw kh sx sy px py ow oh i1 i2 i3 b kern => .ok (.obj [("type", .int 18),
      ("width", .int (w : ℤ)), ("height", .int (h : ℤ)), ("channels", .int (c : ℤ)),
      ("kWidth", .int (kw : ℤ)), ("kHeight", .int (kh : ℤ)),
      ("strideX", .int (sx : ℤ)), ("strideY", .int (sy : ℤ)),
      ("paddingX", .int (px : ℤ)), ("paddingY", .int (py : ℤ)),
      ("outputWidth", .int (ow : ℤ)), ("outputHeight", .int (oh : ℤ)),
      ("inputInterlaced", .bool i1), ("kernelsInterlaced", .bool i2),
      ("outputInterlaced", .bool i3), ("bias", .vec b), ("kernels", .mat kern)])

/-- `GNeuralNetLayer::deserialize` restricted to the weight-bearing kinds:
dispatch on the `type` discriminator and run the matching deserializing
constructor.  `layer_maxout` (14) has no case in the source switch, so it
falls to the default branch and throws; the ten activation kinds (0–9)
carry no weights and are omitted here. -/
def deserializeLayer (d : Dom) : Except String WLayer := do
  let t ← (← d.field ("type")).asInt
  if t = 10 then
    let W ← (← d.field ("weights")).asMat
    pure (.linear W)
  else if t = 16 then
    let W ← (← d.field ("weights")).asMat
    let b ← (← d.field ("bias")).asVec
    let br ← (← d.field ("biasRev")).asVec
    pure (.rbm W b br)
  else if t = 17 then
    let isam ← (← d.field ("isam")).asInt
    let ichan ← (← d.field ("ichan")).asInt
    let osam ← (← d.field ("osam")).asInt
    let kpc ← (← d.field ("kpc")).asInt
    let kern ← (← d.field ("kern")).asMat
    let act ← (← d.field ("act")).asMat
    let b ← (← d.field ("bias")).asVec
    pure (.conv1d isam.toNat ichan.toNat osam.toNat kpc.toNat kern act b)
  else if t = 18 then
    let w ← (← d.field ("width")).asInt
    let h ← (← d.field ("height")).asInt
    let c ← (← d.field ("channels")).asInt
    let kw ← (← d.field ("kWidth")).asInt
    let kh ← (← d.field ("kHeight")).asInt
    let ow ← (← d.field ("outputWidth")).asInt
    let oh ← (← d.field ("outputHeight")).asInt
    let b ← (← d.field ("bias")).asVec
    let kern ← (← d.field ("kernels")).asMat
    let sx ← (← d.field ("strideX")).asInt
    let sy ← (← d.field ("strideY")).asInt
    let px ← (← d.field ("paddingX")).asInt
    let py ← (← d.field ("paddingY")).asInt
    let i1 ← (← d.field ("inputInterlaced")).asBool
    let i2 ← (← d.field ("kernelsInterlaced")).asBool
    let i3 ← (← d.field ("outputInterlaced")).asBool
    pure (.conv2d w.toNat h.toNat c.toNat kw.toNat kh.toNat sx.toNat sy.toNat px.toNat
      py.toNat ow.toNat oh.toNat i1 i2 i3 b kern)
  else .error ("Unrecognized neural network layer type")

/-- Serialization round-trip outcome per kind: `GLayerMaxOut::serialize`
throws, every other weight-bearing kind round-trips to an identical layer. -/
def serOK (L : WLayer) : Prop :=
  match L with
  | .maxout _ _ => serializeLayer L = .error ("Sorry, not implemented yet")
  | _ => (serializeLayer L).bind deserializeLayer = .ok L

/-- `GLayerConvolutional1D::GLayerConvolutional1D(isam, ichan, ks, kpc)`:
rejects `kernelSize > inputSamples`; allocates `ichan*kpc` kernels of width
`ks`, one bias per kernel, and a `2 × outputs()` activation matrix (fresh
buffers modelled as zero-filled). -/
def conv1dCtor (inputSamples inputChannels kernelSize kernelsPerChannel : ℕ) :
    Except String WLayer :=
  if kernelSize > inputSamples then .error ("kernelSize must be <= inputSamples")
  else .ok (.conv1d inputSamples inputChannels (inputSamples - kernelSize + 1)
    kernelsPerChannel
    (List.replicate (inputChannels * kernelsPerChannel) (List.replicate kernelSize 0))
    [List.replicate (inputChannels * kernelsPerChannel * (inputSamples - kernelSize + 1)) 0,
     List.replicate (inputChannels * kernelsPerChannel * (inputSamples - kernelSize + 1)) 0]
    (List.replicate (inputChannels * kernelsPerChannel) 0))

/-- `GLayerConvolutional1D::feedForward`: the activation is tiled with the
bias (`put(bias.size()*i, bias)` for each output sample), then for each
output sample, input channel and kernel the tap sum
`Σ_l w[l] * in[inPos + l*inputChannels]` is added at the next position.
The running pointers of the source are replaced by their closed forms:
`netPos = i*(ichan*kpc) + j*kpc + k`, `inPos = i*ichan + j`,
`kern = j*kpc + k`. -/
def conv1dFeedForward (osam ichan kpc ks : ℕ) (kern : List (List ℚ)) (bias inp : List ℚ) :
    List ℚ :=
  (List.range osam).foldl (fun n i =>
    (List.range ichan).foldl (fun n j =>
      (List.range kpc).foldl (fun n k =>
        let w := kern.getD (j * kpc + k) []
        let d := (List.range ks).foldl
          (fun d l => d + w.getD l 0 * inp.getD (i * ichan + j + l * ichan) 0) 0
        addAt n (i * (ichan * kpc) + j * kpc + k) d) n) n)
    ((List.replicate osam bias).flatten)

/-! ## Theorems -/

theorem addScaled_length (a : List ℚ) (s : ℚ) (w : List ℚ) :
    (addScaled a s w).length = min a.length w.length := by
  simp [addScaled]

theorem addScaled_getD (a : List ℚ) (s : ℚ) (w : List ℚ) (j : ℕ)
    (ha : j < a.length) (hw : j < w.length) :
    (addScaled a s w).getD j 0 = a.getD j 0 + s * w.getD j 0 := by
  induction a generalizing w j with
  | nil => simp at ha
  | cons x xs ih =>
    cases w with
    | nil => simp at hw
    | cons y ys =>
      cases j with
      | zero => simp [addScaled]
      | succ j =>
        simp only [addScaled, List.zipWith_cons_cons, List.getD_cons_succ]
        exact ih ys j (by simpa using ha) (by simpa using hw)

theorem dotProduct_eq_sum (a b : List ℚ) :
    dotProduct a b
      = ∑ t ∈ Finset.range (min a.length b.length), a.getD t 0 * b.getD t 0 := by
  induction a generalizing b with
  | nil => simp [dotProduct]
  | cons x xs ih =>
    cases b with
    | nil => simp [dotProduct]
    | cons y ys =>
      have hstep : dotProduct (x :: xs) (y :: ys) = x * y + dotProduct xs ys := by
        simp [dotProduct]
      rw [hstep, ih ys, List.length_cons, List.length_cons, Nat.succ_min_succ,
          Finset.sum_range_succ']
      simp [List.getD_cons_succ, List.getD_cons_zero, add_comm]

theorem addAt_length (d : List ℚ) (k : ℕ) (v : ℚ) : (addAt d k v).length = d.length := by
  simp [addAt]

theorem addAt_getD_self (d : List ℚ) (k : ℕ) (v : ℚ) (h : k < d.length) :
    (addAt d k v).getD k 0 = d.getD k 0 + v := by
  induction d generalizing k with
  | nil => simp at h
  | cons x xs ih =>
    cases k with
    | zero => simp [addAt]
    | succ k =>
      have := ih k (by simpa using h)
      simpa [addAt, List.getD_cons_succ] using this

theorem addAt_getD_ne (d : List ℚ) (k : ℕ) (v : ℚ) (j : ℕ) (h : j ≠ k) :
    (addAt d k v).getD j 0 = d.getD j 0 := by
  induction d generalizing k j with
  | nil => simp [addAt]
  | cons x xs ih =>
    cases k with
    | zero =>
      cases j with
      | zero => exact absurd rfl h
      | succ j => simp [addAt]
    | succ k =>
      cases j with
      | zero => simp [addAt]
      | succ j =>
        have := ih k j (fun he => h (by rw [he]))
        simpa [addAt, List.getD_cons_succ] using this

theorem foldl_addAt_length {α : Type} (l : List α) (f : α → ℕ) (g : α → ℚ) (d : List ℚ) :
    (l.foldl (fun d x => addAt d (f x) (g x)) d).length = d.length := by
  induction l generalizing d with
  | nil => rfl
  | cons x xs ih => rw [List.foldl_cons, ih, addAt_length]

theorem foldl_addAt_getD_of_ne {α : Type} (l : List α) (f : α → ℕ) (g : α → ℚ)
    (d : List ℚ) (k : ℕ) (h : ∀ x ∈ l, f x ≠ k) :
    (l.foldl (fun d x => addAt d (f x) (g x)) d).getD k 0 = d.getD k 0 := by
  induction l generalizing d with
  | nil => rfl
  | cons x xs ih =>
    rw [List.foldl_cons, ih _ (fun y hy => h y (List.mem_cons_of_mem _ hy)),
        addAt_getD_ne _ _ _ _ (Ne.symm (h x (List.mem_cons_self _ _)))]

theorem foldl_addAt_range_getD (m : ℕ) (f : ℕ → ℕ) (g : ℕ → ℚ) (d : List ℚ) (j0 : ℕ)
    (hj : j0 < m) (hinj : ∀ j < m, f j = f j0 → j = j0) (hk : f j0 < d.length) :
    ((List.range m).foldl (fun d j => addAt d (f j) (g j)) d).getD (f j0) 0
      = d.getD (f j0) 0 + g j0 := by
  induction m generalizing d with
  | zero => omega
  | succ m ih =>
    rw [List.range_succ, List.foldl_append, List.foldl_cons, List.foldl_nil]
    by_cases hcase : j0 = m
    · subst hcase
      have hpre : ((List.range j0).foldl (fun d j => addAt d (f j) (g j)) d).getD (f j0) 0
          = d.getD (f j0) 0 :=
        foldl_addAt_getD_of_ne _ _ _ _ _ (fun x hx => by
          intro he
          have hxlt := List.mem_range.mp hx
          have := hinj x (by omega) he
          omega)
      rw [addAt_getD_self _ _ _ (by rw [foldl_addAt_length]; exact hk), hpre]
    · have hj' : j0 < m := by omega
      have hne : f m ≠ f j0 := fun he => hcase ((hinj m (by omega) he).symm)
      rw [addAt_getD_ne _ _ _ _ (fun he => hne he.symm)]
      exact ih d hj' (fun j hjm he => hinj j (by omega) he) hk

theorem index_lt (i j m N : ℕ) (hi : i < N) (hj : j < m) : i * m + j < N * m := by
  have h2 : (i + 1) * m ≤ N * m := Nat.mul_le_mul_right m hi
  rw [Nat.add_mul, Nat.one_mul] at h2
  linarith

theorem ff_foldl_length (W : List (List ℚ)) (input : List ℚ) (m N : ℕ)
    (hrows : ∀ i < N, (W.getD i []).length = m) (a : List ℚ) (ha : a.length = m) :
    ((List.range N).foldl (fun a i => addScaled a (input.getD i 0) (W.getD i [])) a).length
      = m := by
  induction N with
  | zero => simpa
  | succ N ih =>
    rw [List.range_succ, List.foldl_append, List.foldl_cons, List.foldl_nil, addScaled_length,
        ih (fun i hi => hrows i (by omega)), hrows N (by omega)]
    simp

theorem ff_foldl_getD (W : List (List ℚ)) (input : List ℚ) (m N : ℕ)
    (hrows : ∀ i < N, (W.getD i []).length = m) (a : List ℚ) (ha : a.length = m)
    (j : ℕ) (hj : j < m) :
    ((List.range N).foldl (fun a i => addScaled a (input.getD i 0) (W.getD i [])) a).getD j 0
      = a.getD j 0 + ∑ t ∈ Finset.range N, input.getD t 0 * (W.getD t []).getD j 0 := by
  induction N with
  | zero => simp
  | succ N ih =>
    rw [List.range_succ, List.foldl_append, List.foldl_cons, List.foldl_nil]
    rw [addScaled_getD _ _ _ j
        (by rw [ff_foldl_length W input m N (fun i hi => hrows i (by omega)) a ha]; exact hj)
        (by rw [hrows N (by omega)]; exact hj)]
    rw [ih (fun i hi => hrows i (by omega)), Finset.sum_range_succ]
    ring

theorem ud_outer_length (m : ℕ) (err upAct : List ℚ) (N : ℕ) (d : List ℚ) :
    ((List.range N).foldl (fun d i =>
        (List.range m).foldl
          (fun d j => addAt d (i * m + j) (err.getD j 0 * upAct.getD i 0)) d) d).length
      = d.length := by
  induction N generalizing d with
  | zero => rfl
  | succ N ih =>
    rw [List.range_succ, List.foldl_append, List.foldl_cons, List.foldl_nil,
        foldl_addAt_length, ih]

theorem ud_outer_preserve (m : ℕ) (err upAct : List ℚ) (N : ℕ) (d : List ℚ) (k : ℕ)
    (h : ∀ i < N, ∀ j < m, i * m + j ≠ k) :
    ((List.range N).foldl (fun d i =>
        (List.range m).foldl
          (fun d j => addAt d (i * m + j) (err.getD j 0 * upAct.getD i 0)) d) d).getD k 0
      = d.getD k 0 := by
  induction N generalizing d with
  | zero => rfl
  | succ N ih =>
    rw [List.range_succ, List.foldl_append, List.foldl_cons, List.foldl_nil]
    rw [foldl_addAt_getD_of_ne _ _ _ _ _ (fun x hx => h N (by omega) x (List.mem_range.mp hx))]
    exact ih d (fun i hi j hj => h i (by omega) j hj)

theorem ud_outer_getD (m : ℕ) (err upAct : List ℚ) (N : ℕ) (d : List ℚ) (i0 j0 : ℕ)
    (hi : i0 < N) (hj : j0 < m) (hk : i0 * m + j0 < d.length) :
    ((List.range N).foldl (fun d i =>
        (List.range m).foldl
          (fun d j => addAt d (i * m + j) (err.getD j 0 * upAct.getD i 0)) d) d).getD
        (i0 * m + j0) 0
      = d.getD (i0 * m + j0) 0 + err.getD j0 0 * upAct.getD i0 0 := by
  induction N generalizing d with
  | zero => omega
  | succ N ih =>
    rw [List.range_succ, List.foldl_append, List.foldl_cons, List.foldl_nil]
    by_cases hcase : i0 = N
    · subst hcase
      have hpre : ∀ i < i0, ∀ j < m, i * m + j ≠ i0 * m + j0 := by
        intro i hilt jj hjj
        have hlt : i * m + jj < i0 * m := index_lt i jj m i0 hilt hjj
        have : i0 * m ≤ i0 * m + j0 := Nat.le_add_right _ _
        omega
      have hbase := ud_outer_preserve m err upAct i0 d (i0 * m + j0) hpre
      have heq : ((List.range m).foldl
          (fun d j => addAt d (i0 * m + j) (err.getD j 0 * upAct.getD i0 0))
          ((List.range i0).foldl (fun d i =>
            (List.range m).foldl
              (fun d j => addAt d (i * m + j) (err.getD j 0 * upAct.getD i 0)) d) d)).getD
            (i0 * m + j0) 0 = _ :=
        foldl_addAt_range_getD m (fun j => i0 * m + j) _ _ j0 hj
          (fun j hjm he => Nat.add_left_cancel he)
          (by rw [ud_outer_length]; exact hk)
      rw [heq, hbase]
    · have hi' : i0 < N := by omega
      rw [foldl_addAt_getD_of_ne _ _ _ _ _ (fun x hx => by
        have hxm := List.mem_range.mp hx
        have hlt : i0 * m + j0 < N * m := index_lt i0 j0 m N hi' hj
        have : N * m ≤ N * m + x := Nat.le_add_right _ _
        omega)]
      exact ih d hi' hk

/-- Claim C1: for a `GLayerLinear` with weight matrix `W` of shape
`(n+1) × m` (last row the bias), `feedForward` sets
`activation[j] = bias[j] + Σ_i input[i] * W[i][j]`; `backPropError` sets
`upstreamError[i] = error · W[i,:]` for every upstream index; and
`updateDeltas` adds (does not overwrite) `upstreamActivation[i] * error[j]`
into the delta slot for weight `(i, j)` and `error[j]` into the delta slot
for bias `j`. -/
theorem linear_layer_contract (n m i j : ℕ) (W : List (List ℚ))
    (input err upAct deltas : List ℚ)
    (hW : isMatrix W (n + 1) m = true) (herr : err.length = m)
    (hdel : deltas.length = (n + 1) * m) (hi : i < n) (hj : j < m) :
    (linearFeedForward W input).getD j 0
        = (W.getD n []).getD j 0
          + ∑ t ∈ Finset.range n, input.getD t 0 * (W.getD t []).getD j 0
    ∧ (linearBackPropError W err n).getD i 0
        = ∑ t ∈ Finset.range m, err.getD t 0 * (W.getD i []).getD t 0
    ∧ (linearUpdateDeltas n m upAct err deltas).getD (i * m + j) 0
        = deltas.getD (i * m + j) 0 + upAct.getD i 0 * err.getD j 0
    ∧ (linearUpdateDeltas n m upAct err deltas).getD (n * m + j) 0
        = deltas.getD (n * m + j) 0 + err.getD j 0 := by
  have hW2 := hW
  simp only [isMatrix, Bool.and_eq_true, beq_iff_eq, List.all_eq_true] at hW2
  obtain ⟨hWlen, hWrows⟩ := hW2
  have hrows : ∀ t, t < n + 1 → (W.getD t []).length = m := by
    intro t ht
    have htW : t < W.length := by omega
    rw [List.getD_eq_getElem _ _ htW]
    exact hWrows _ (List.getElem_mem htW)
  refine ⟨?_, ?_, ?_, ?_⟩
  · unfold linearFeedForward
    rw [hWlen]
    simp only [Nat.add_sub_cancel]
    exact ff_foldl_getD W input m n (fun t ht => hrows t (by omega)) _
      (hrows n (by omega)) j hj
  · unfold linearBackPropError
    rw [List.getD_eq_getElem _ _ (by simpa using hi)]
    simp only [List.getElem_map, List.getElem_range]
    rw [dotProduct_eq_sum, herr, hrows i (by omega), Nat.min_self]
  · unfold linearUpdateDeltas
    have hne : ∀ x ∈ List.range m, n * m + x ≠ i * m + j := by
      intro x hx he
      have hlt : i * m + j < n * m := index_lt i j m n hi hj
      have hle : n * m ≤ n * m + x := Nat.le_add_right _ _
      omega
    rw [foldl_addAt_getD_of_ne _ _ _ _ _ hne,
        ud_outer_getD m err upAct n deltas i j hi hj
          (by rw [hdel]; exact index_lt i j m (n + 1) (by omega) hj)]
    ring
  · unfold linearUpdateDeltas
    have h1 := foldl_addAt_range_getD m (fun j2 => n * m + j2) (fun j2 => err.getD j2 0)
      ((List.range n).foldl (fun d i2 =>
        (List.range m).foldl
          (fun d j2 => addAt d (i2 * m + j2) (err.getD j2 0 * upAct.getD i2 0)) d) deltas)
      j hj (fun t ht he => Nat.add_left_cancel he)
      (by rw [ud_outer_length, hdel]; exact index_lt n j m (n + 1) (by omega) hj)
    have h2 := ud_outer_preserve m err upAct n deltas (n * m + j) (by
      intro i2 hi2 j2 hj2 he
      have hlt : i2 * m + j2 < n * m := index_lt i2 j2 m n hi2 hj2
      have hle : n * m ≤ n * m + j := Nat.le_add_right _ _
      omega)
    simp only [] at h1
    rw [h1, h2]

/-- Claim C1 (witness): the delta-accumulation equation of
`linear_layer_contract` at a concrete 1-input, 2-output layer. -/
theorem linear_layer_contract_witness :
    isMatrix [[(1 : ℚ), 2], [3, 4]] 2 2 = true ∧
    (linearUpdateDeltas 1 2 [5] [10, 20] [0, 0, 0, 0]).getD (0 * 2 + 1) 0
      = ([0, 0, 0, 0] : List ℚ).getD (0 * 2 + 1) 0
        + ([5] : List ℚ).getD 0 0 * ([10, 20] : List ℚ).getD 1 0 :=
  ⟨by decide,
   (linear_layer_contract 1 2 0 1 [[1, 2], [3, 4]] [9] [10, 20] [5] [0, 0, 0, 0]
      (by decide) (by decide) (by decide) (by decide) (by decide)).2.2.1⟩

/-- Claim C5: constructing `GLayerProductPooling` or `GLayerAdditionPooling`
with input size `2n` yields a layer reporting `outputs() == n`, and
construction raises a shape error if and only if the input size is odd. -/
theorem pooling_ctor_shape (n k : ℕ) :
    productPoolingCtor (2 * n) = .ok n ∧ additionPoolingCtor (2 * n) = .ok n ∧
    ((productPoolingCtor k).isOk = false ↔ k % 2 = 1) ∧
    ((additionPoolingCtor k).isOk = false ↔ k % 2 = 1) := by
  have hand : ∀ m : ℕ, m &&& 1 = m % 2 := fun m => Nat.and_one_is_mod m
  have heven : (2 * n) &&& 1 = 0 := by rw [hand]; omega
  have hok : ∀ m : ℕ, m &&& 1 ≠ 1 → poolingResize 0 m (m / 2) = .ok (m / 2) → True := fun _ _ _ => trivial
  refine ⟨?_, ?_, ?_, ?_⟩
  · unfold productPoolingCtor poolingResize
    rw [heven]
    have h2 : (2 * n) / 2 = n := by omega
    simp only [h2]
    by_cases hn : n = 0
    · subst hn; simp
    · have : ¬ (n * 2 ≠ 2 * n) := by omega
      simp [this, hn]
  · unfold additionPoolingCtor poolingResize
    rw [heven]
    have h2 : (2 * n) / 2 = n := by omega
    simp only [h2]
    by_cases hn : n = 0
    · subst hn; simp
    · have : ¬ (n * 2 ≠ 2 * n) := by omega
      simp [this, hn]
  · unfold productPoolingCtor poolingResize
    rw [hand]
    rcases Nat.mod_two_eq_zero_or_one k with h | h
    · have hne : ¬ (k % 2 = 1) := by omega
      have hdiv : ¬ (k / 2 * 2 ≠ k) := by omega
      simp only [h, hdiv, if_false, ite_not]
      by_cases hk : k / 2 = 0 <;> simp [hk, hne, Except.isOk, Except.toBool]
    · simp [h, Except.isOk, Except.toBool]
  · unfold additionPoolingCtor poolingResize
    rw [hand]
    rcases Nat.mod_two_eq_zero_or_one k with h | h
    · have hne : ¬ (k % 2 = 1) := by omega
      have hdiv : ¬ (k / 2 * 2 ≠ k) := by omega
      simp only [h, hdiv, if_false, ite_not]
      by_cases hk : k / 2 = 0 <;> simp [hk, hne, Except.isOk, Except.toBool]
    · simp [h, Except.isOk, Except.toBool]

/-- Claim C2 (evaluation at the failing input): with one output, upstream
activation `[5, 7]` and error `[1]`, the code produces upstream error
`[8, 6]`, not the `[1, 1]` that copying the error to both contributing
inputs would give — the upstream activation leaks into the propagated
error. -/
theorem additionPooling_backPropError_adds_activation :
    additionPoolingBackPropError [5, 7] [1] [0, 0] 1 = [8, 6] ∧
    ¬ ((additionPoolingBackPropError [5, 7] [1] [0, 0] 1).getD 0 0 = 1 ∧
       (additionPoolingBackPropError [5, 7] [1] [0, 0] 1).getD 1 0 = 1) := by
  have heval : additionPoolingBackPropError [5, 7] [1] [0, 0] 1 = [8, 6] := by
    norm_num [additionPoolingBackPropError, List.range_succ]
  constructor
  · exact heval
  · intro h
    rw [heval] at h
    exact absurd h.1 (by norm_num)

/-- Claim C9 (counterexample): at `x = -700` we have `|x| ≥ 700` and `x`
negative, yet `GLayerLogistic::eval` does not return `0` — the saturation
branch only triggers strictly below `-700`, so the code computes
`1 / (exp(700) + 1) > 0` there. -/
theorem logisticEval_neg700_ne_zero : logisticEval (-700) ≠ 0 := by
  have hbranch : logisticEval (-700) = 1 / (Real.exp 700 + 1) := by
    unfold logisticEval
    rw [if_neg (by norm_num), if_neg (by norm_num)]
    norm_num
  rw [hbranch]
  have hpos : (0 : ℝ) < Real.exp 700 + 1 := by positivity
  positivity

/-- Claim C9 (amended): `eval` returns exactly `1` for `x ≥ 700`, exactly
`0` for `x < -700`, and `1 / (exp(-x) + 1)` for `-700 ≤ x < 700`. -/
theorem logisticEval_saturation (x : ℝ) :
    (x ≥ 700 → logisticEval x = 1) ∧
    (x < -700 → logisticEval x = 0) ∧
    (-700 ≤ x → x < 700 → logisticEval x = 1 / (Real.exp (-x) + 1)) := by
  refine ⟨fun h => ?_, fun h => ?_, fun h1 h2 => ?_⟩
  · unfold logisticEval; rw [if_pos h]
  · unfold logisticEval
    rw [if_neg (by linarith), if_pos h]
  · unfold logisticEval
    rw [if_neg (by linarith), if_neg (by linarith)]

/-- Claim C9 (witness): the amended saturation law evaluated at `700`,
`-701`, and `0`. -/
theorem logisticEval_saturation_witness :
    logisticEval 700 = 1 ∧ logisticEval (-701) = 0 ∧
    logisticEval 0 = 1 / (Real.exp (-0) + 1) :=
  ⟨(logisticEval_saturation 700).1 (by norm_num),
   (logisticEval_saturation (-701)).2.1 (by norm_num),
   (logisticEval_saturation 0).2.2 (by norm_num) (by norm_num)⟩

/-- Claim C10 (evaluation at the failing input): a `GMaxPooling2D` built by
the deserializing constructor from `icol=4, irow=4, ichan=1, size=2` reports
`outputs() == 4` but its activation/error buffers have length `0`, violating
the buffer-length invariant. -/
theorem maxPooling2d_deserialize_activation_length :
    (maxPooling2dFromDom 4 4 1 2).actCols = 0 ∧
    (maxPooling2dFromDom 4 4 1 2).outputs = 4 ∧
    (maxPooling2dFromDom 4 4 1 2).actCols ≠ (maxPooling2dFromDom 4 4 1 2).outputs := by
  refine ⟨rfl, rfl, ?_⟩
  decide

theorem join_length_uniform (M : List (List ℚ)) (c : ℕ) (h : ∀ row ∈ M, row.length = c) :
    M.flatten.length = M.length * c := by
  induction M with
  | nil => simp
  | cons row tl ih =>
    simp only [List.flatten_cons, List.length_append, List.length_cons,
      h row (List.mem_cons_self _ _), ih (fun r hr => h r (List.mem_cons_of_mem _ hr))]
    ring

theorem fromVector_join_append (M : List (List ℚ)) (c : ℕ) (rest : List ℚ)
    (h : ∀ row ∈ M, row.length = c) :
    fromVector M.length c (M.flatten ++ rest) = M := by
  induction M with
  | nil => rfl
  | cons row tl ih =>
    have hr : row.length = c := h row (List.mem_cons_self _ _)
    show fromVector (tl.length + 1) c ((row ++ tl.flatten) ++ rest) = row :: tl
    rw [List.append_assoc, fromVector, List.take_left' hr, List.drop_left' hr,
        ih (fun r hr2 => h r (List.mem_cons_of_mem _ hr2))]

theorem isMatrix_rows (M : List (List ℚ)) (r c : ℕ) (h : isMatrix M r c = true) :
    M.length = r ∧ ∀ row ∈ M, row.length = c := by
  simpa [isMatrix, List.all_eq_true] using h

/-- Claim C3 (evaluation at the failing input): `GLayerMaxOut::feedForward`
is not a function of the threaded PRNG seed, the inputs and the weights:
with identical weights `[[1],[2]]`, bias `[0,0]` and input `[1,2]`, two
different states of the hidden C-library `rand()` stream (one that never
fires the 1/10 override, one that always fires it and redirects to input 0)
produce different activations and winner indices, so fixing the shared
`GRand` seed does not reproduce the run. -/
theorem maxout_feedforward_reads_hidden_global_stream :
    maxOutFeedForward 2 1 [[1], [2]] [0, 0] [1, 2] (fun _ => 1)
      ≠ maxOutFeedForward 2 1 [[1], [2]] [0, 0] [1, 2] (fun _ => 0) := by
  have h1 : (maxOutFeedForward 2 1 [[1], [2]] [0, 0] [1, 2] (fun _ => 1)).1 = [4] := by
    norm_num [maxOutFeedForward, List.range_succ]
  have h2 : (maxOutFeedForward 2 1 [[1], [2]] [0, 0] [1, 2] (fun _ => 0)).1 = [1] := by
    norm_num [maxOutFeedForward, List.range_succ]
  intro h
  rw [congrArg Prod.fst h] at h1
  rw [h1] at h2
  have h3 : (4 : ℚ) = 1 := by
    have h4 := congrArg (fun l => l.getD 0 0) h2
    simp only [List.getD_cons_zero] at h4
    exact h4
  norm_num at h3

/-- Claim C4 (amended): for every well-formed weight-bearing layer,
`vectorToWeights(weightsToVector(L))` is the identical layer; and
`deserialize(serialize(L))` succeeds and reproduces the layer exactly for
the linear, RBM, convolutional-1D and convolutional-2D kinds, while for
`GLayerMaxOut` `serialize` throws "Sorry, not implemented yet" instead of
succeeding. -/
theorem weighted_layer_round_trip (L : WLayer) (h : L.wf = true) :
    vectorToWeights L (weightsToVector L) = L ∧ serOK L := by
  cases L with
  | linear W =>
    obtain ⟨hlen, hrows⟩ := isMatrix_rows _ _ _ (by simpa [WLayer.wf] using h)
    constructor
    · show WLayer.linear (fromVector W.length (colsOf W) W.flatten) = WLayer.linear W
      rw [← List.append_nil W.flatten, fromVector_join_append W (colsOf W) [] hrows]
    · rfl
  | maxout W b =>
    have h2 : isMatrix W W.length (colsOf W) = true ∧ b.length = W.length := by
      simpa [WLayer.wf] using h
    obtain ⟨hlen, hrows⟩ := isMatrix_rows _ _ _ h2.1
    constructor
    · have htake : b.take W.length = b := by rw [← h2.2]; exact List.take_length b
      show WLayer.maxout
          (fromVector W.length (colsOf W) ((b.take W.length ++ W.flatten).drop W.length))
          ((b.take W.length ++ W.flatten).take W.length) = WLayer.maxout W b
      rw [htake, List.take_left' h2.2, List.drop_left' h2.2,
          ← List.append_nil W.flatten, fromVector_join_append W (colsOf W) [] hrows]
    · rfl
  | rbm W b br =>
    have h2 : (isMatrix W W.length (colsOf W) = true ∧ b.length = W.length)
        ∧ br.length = colsOf W := by
      simpa [WLayer.wf, and_assoc] using h
    obtain ⟨⟨hmat, hb⟩, hbr⟩ := h2
    obtain ⟨hlen, hrows⟩ := isMatrix_rows _ _ _ hmat
    constructor
    · have htake : b.take W.length = b := by rw [← hb]; exact List.take_length b
      show WLayer.rbm
          (fromVector W.length (colsOf W) ((b.take W.length ++ W.flatten).drop W.length))
          ((b.take W.length ++ W.flatten).take W.length) br = WLayer.rbm W b br
      rw [htake, List.take_left' hb, List.drop_left' hb,
          ← List.append_nil W.flatten, fromVector_join_append W (colsOf W) [] hrows]
    · rfl
  | conv1d isam ichan osam kpc kern act b =>
    have h2 : isMatrix kern (ichan * kpc) (colsOf kern) = true ∧ b.length = kern.length := by
      simpa [WLayer.wf] using h
    obtain ⟨hlen, hrows⟩ := isMatrix_rows _ _ _ h2.1
    constructor
    · have htake : b.take kern.length = b := by rw [← h2.2]; exact List.take_length b
      show WLayer.conv1d isam ichan osam kpc
          (fromVector kern.length (colsOf kern)
            ((b.take kern.length ++ kern.flatten).drop kern.length))
          act ((b.take kern.length ++ kern.flatten).take kern.length)
        = WLayer.conv1d isam ichan osam kpc kern act b
      rw [htake, List.take_left' h2.2, List.drop_left' h2.2,
          ← List.append_nil kern.flatten, fromVector_join_append kern (colsOf kern) [] hrows]
    · show (serializeLayer _).bind deserializeLayer = _
      rfl
  | conv2d w hh c kw kh sx sy px py ow oh i1 i2 i3 b kern =>
    have h2 : isMatrix kern kern.length (colsOf kern) = true ∧ b.length = kern.length := by
      simpa [WLayer.wf] using h
    obtain ⟨hlen, hrows⟩ := isMatrix_rows _ _ _ h2.1
    constructor
    · have hjoin : kern.flatten.length = kern.length * colsOf kern :=
        join_length_uniform kern (colsOf kern) hrows
      have htake : b.take kern.length = b := by rw [← h2.2]; exact List.take_length b
      show WLayer.conv2d w hh c kw kh sx sy px py ow oh i1 i2 i3
          (((kern.flatten ++ b).drop (kern.length * colsOf kern)).take kern.length)
          (fromVector kern.length (colsOf kern) (kern.flatten ++ b))
        = WLayer.conv2d w hh c kw kh sx sy px py ow oh i1 i2 i3 b kern
      rw [List.drop_left' hjoin, htake, fromVector_join_append kern (colsOf kern) b hrows]
    · show (serializeLayer _).bind deserializeLayer = _
      rfl

/-- Claim C4 (witness): the round trip at a concrete 2-input, 2-output
linear layer. -/
theorem weighted_layer_round_trip_witness :
    (WLayer.linear [[(1 : ℚ), 2], [3, 4], [5, 6]]).wf = true ∧
    (vectorToWeights (WLayer.linear [[(1 : ℚ), 2], [3, 4], [5, 6]])
        (weightsToVector (WLayer.linear [[(1 : ℚ), 2], [3, 4], [5, 6]]))
      = WLayer.linear [[(1 : ℚ), 2], [3, 4], [5, 6]]
    ∧ serOK (WLayer.linear [[(1 : ℚ), 2], [3, 4], [5, 6]])) :=
  ⟨by decide, weighted_layer_round_trip _ (by decide)⟩

/-- Claim C4 (counterexample): a well-formed 1×1 `GLayerMaxOut` cannot be
serialized — `serialize` throws, so `deserialize(serialize(L))` does not
succeed for every layer kind with weights. -/
theorem maxout_serialize_fails :
    (WLayer.maxout [[(1 : ℚ)]] [0]).wf = true ∧
    ((serializeLayer (WLayer.maxout [[(1 : ℚ)]] [0])).bind deserializeLayer).isOk = false :=
  ⟨by decide, rfl⟩

/-- Claim C6 (evaluation at the failing input): a `GLayerConvolutional1D`
with `inputSamples=10, inputChannels=1, kernelSize=3, kernelsPerChannel=1`
(so one kernel of width 3) has `countWeights() = (1+1)*3 = 6`, while
`weightsToVector` writes only `1 + 1*3 = 4` doubles yet returns 6; the
claim's formula `kernelCount*kernelSize + kernelCount = 4` matches what is
written but not what `countWeights()` returns. -/
theorem conv1d_weight_count_mismatch :
    (conv1dCtor 10 1 3 1).map
        (fun L => (WLayer.countWeights L, (weightsToVector L).length, wtvReturnValue L))
      = .ok (6, 4, 6)
    ∧ (6 : ℕ) ≠ 1 * 3 + 1 := by
  constructor
  · rfl
  · decide

/-- Claim C7 (evaluation at the failing input): on the scenario-3 input the
max-pooling forward pass produces `[2, 6, 10, 14]` — the per-block maximum
of the first block row only — instead of the claimed `[4, 8, 12, 16]`; and
with unit errors at all four outputs, backPropError routes each error to
the first-row maximum and leaves the second-row slots of the upstream
error buffer untouched (still 9) instead of zeroing them. -/
theorem maxPooling2d_scans_only_first_block_row :
    maxPoolFeedForward 4 4 1 2 scenarioThreeInput = [2, 6, 10, 14] ∧
    maxPoolFeedForward 4 4 1 2 scenarioThreeInput ≠ [4, 8, 12, 16] ∧
    maxPoolBackPropError 4 4 1 2 scenarioThreeInput [1, 1, 1, 1] (List.replicate 16 9)
      = [0, 1, 0, 1, 9, 9, 9, 9, 0, 1, 0, 1, 9, 9, 9, 9] := by
  have hff : maxPoolFeedForward 4 4 1 2 scenarioThreeInput = [2, 6, 10, 14] := by
    norm_num [maxPoolFeedForward, scenarioThreeInput, stepRange, List.range_succ]
  have hbp : maxPoolBackPropError 4 4 1 2 scenarioThreeInput [1, 1, 1, 1]
      (List.replicate 16 9)
      = [0, 1, 0, 1, 9, 9, 9, 9, 0, 1, 0, 1, 9, 9, 9, 9] := by
    norm_num [maxPoolBackPropError, scenarioThreeInput, stepRange, List.range_succ,
      List.replicate]
  refine ⟨hff, ?_, hbp⟩
  rw [hff]
  intro h
  have h3 : (2 : ℚ) = 4 := by
    have h4 := congrArg (fun l => l.getD 0 0) h
    simp only [List.getD_cons_zero] at h4
    exact h4
  norm_num at h3

/-- Claim C8: a `GLayerConvolutional1D` built with
`inputSamples=10, inputChannels=1, kernelSize=3, kernelsPerChannel=1`
reports `outputs() = 8`, and for every input vector, kernel `[w0, w1, w2]`
and bias `[b]`, the first activation equals the dot product of the kernel
with the first three inputs plus the kernel's bias. -/
theorem conv1d_scenario_two (w0 w1 w2 b : ℚ) (inp : List ℚ) :
    (conv1dCtor 10 1 3 1).map WLayer.outputs = .ok 8 ∧
    (conv1dFeedForward 8 1 1 3 [[w0, w1, w2]] [b] inp).getD 0 0
      = b + (w0 * inp.getD 0 0 + w1 * inp.getD 1 0 + w2 * inp.getD 2 0) := by
  constructor
  · rfl
  · norm_num [conv1dFeedForward, addAt, List.range_succ, List.replicate]

end Waffles
